import Mathlib

/-!
Verification of the `looper` single-threaded I/O reactor (crate `looper`,
files `src/lib.rs`, `src/process_unix.rs`).

The embedding is shallow and executable:

* `Stash V` models the `stash::Stash` slot table used for both the handler
  table and the object store: a list of slots, where `none` is a free slot.
  `put` inserts at the first free slot (or appends), `take` frees a slot,
  `get` reads one.  Indices of occupied slots are stable; freed indices may
  be reused, which is all the reactor relies on.
* `AnyBox` models `Box<dyn Any>`: a runtime type tag plus a payload, with
  `downcastRef` modelling `Any::downcast_ref` (succeeds iff the tag matches).
* User callbacks (`FnMut(&mut T, &mut Core)`) are abstracted by a type
  parameter `C` of callback codes together with a semantics function
  `Sem C : C → AnyBox → CoreState C → AnyBox × CoreState C`; all theorems
  hold for an arbitrary semantics, and witnesses instantiate `C := Nat` with
  a concrete tracing semantics.
* `CoreState C` mirrors `Core { io_handlers, objects, exit, process_handler }`;
  the OS poller is external and is modelled by feeding `run` a list of event
  batches; `waitpid` is modelled by an oracle giving, per pid, the list of
  successive return values observed by the retry loop in `reap`.
-/

set_option maxHeartbeats 1000000

namespace Looper

/-- Model of `Box<dyn Any>` (`std::any::Any`): a runtime type tag together
with an (encoded) payload. -/
structure AnyBox where
  typeId : Nat
  value : List Nat
deriving DecidableEq, Repr

/-- Model of `Any::downcast_ref::<T>` / `downcast_mut::<T>`: yields the
payload exactly when the runtime type tag matches the requested one. -/
def downcastRef (tid : Nat) (b : AnyBox) : Option (List Nat) :=
  if b.typeId = tid then some b.value else none

/-- Model of the `stash::Stash` slot table: a list of slots, `none` being a
free slot.  Both `Core.io_handlers` and `Core.objects` are instances (their
stored values are themselves `Option`s, used for the take/restore dance). -/
structure Stash (V : Type) where
  data : List (Option V)
deriving DecidableEq, Repr

/-- First free index of a slot list: the first `none` entry, or the length
when every slot is occupied. -/
def findFreeIdx {V : Type} : List (Option V) → Nat
  | [] => 0
  | none :: _ => 0
  | some _ :: l => findFreeIdx l + 1

/-- Model of `Stash::next_index`: the index the next `put` will use. -/
def Stash.nextIndex {V : Type} (s : Stash V) : Nat :=
  findFreeIdx s.data

/-- Model of `Stash::get`: the value at an index, `none` if the slot is free
or out of range. -/
def Stash.get {V : Type} (s : Stash V) (i : Nat) : Option V :=
  s.data.getD i none

/-- Model of `Stash::put`: store a value in the first free slot and return
its index. -/
def Stash.put {V : Type} (s : Stash V) (v : V) : Nat × Stash V :=
  let i := s.nextIndex
  if i < s.data.length then (i, ⟨s.data.set i (some v)⟩)
  else (i, ⟨s.data ++ [some v]⟩)

/-- Model of `Stash::take`: remove and return the value at an index, freeing
the slot. -/
def Stash.take {V : Type} (s : Stash V) (i : Nat) : Option V × Stash V :=
  match s.get i with
  | some v => (some v, ⟨s.data.set i none⟩)
  | none => (none, s)

/-- Model of `Stash::is_empty`: no slot is occupied. -/
def Stash.isEmpty {V : Type} (s : Stash V) : Bool :=
  s.data.all Option.isNone

/-- Model of `stash.get_mut(i).and_then(Option::take)` on a stash whose
values are `Option X`: move the inner value out, leaving the slot allocated
but holding `none`. -/
def Stash.takeInner {X : Type} (s : Stash (Option X)) (i : Nat) :
    Option X × Stash (Option X) :=
  match s.get i with
  | some (some v) => (some v, ⟨s.data.set i (some none)⟩)
  | _ => (none, s)

/-- Model of `if let Some(slot) = stash.get_mut(i) { *slot = Some(v); true }
else false`: write the value back if the slot still exists. -/
def Stash.restoreInner {X : Type} (s : Stash (Option X)) (i : Nat) (v : X) :
    Bool × Stash (Option X) :=
  match s.get i with
  | some _ => (true, ⟨s.data.set i (some (some v))⟩)
  | none => (false, s)

/-! The reactor state (`Core` in `src/lib.rs`). -/

/-- Model of `IoHandler { object_id, read_fn, write_fn }`.  Callbacks are
abstract codes of type `C`; their meaning is given by a `Sem C`. -/
structure IoHandler (C : Type) where
  object_id : Nat
  read_fn : Option C
  write_fn : Option C
deriving DecidableEq, Repr

/-- Model of `process_unix::Reaper { pid, object_id, callback }`. -/
structure Reaper (C : Type) where
  pid : Nat
  object_id : Nat
  callback : C
deriving DecidableEq, Repr

/-- Model of `Core { io_handlers, objects, poll, exit, process_handler }`.
The `mio::Poll` handle is external (its registrations live in the OS) and is
modelled by feeding `run` the batches of events the poller returns; the
process handler is its `reapers` queue (a `VecDeque`, front = list head). -/
structure CoreState (C : Type) where
  io_handlers : Stash (Option (IoHandler C))
  objects : Stash (Option AnyBox)
  exit : Bool
  reapers : List (Reaper C)
deriving DecidableEq, Repr

/-- One readiness event as returned by the poller (`mio::Event`): a token
and its readiness flags. -/
structure Event where
  token : Nat
  readable : Bool
  writable : Bool
deriving DecidableEq, Repr

/-- Semantics of callback codes: a callback receives the (taken) object and
the reactor, and returns both, possibly mutated (`FnMut(&mut T, &mut Core)`
with the `downcast_mut` guard of `Callback::make_call` folded into the
interpretation of the code). -/
def Sem (C : Type) : Type :=
  C → AnyBox → CoreState C → AnyBox × CoreState C

/-- Model of `Core::next_id`. -/
def CoreState.next_id {C : Type} (st : CoreState C) : Nat :=
  st.objects.nextIndex

/-- Model of `Core::add`: `self.objects.put(Some(Box::new(object)))`. -/
def CoreState.add {C : Type} (st : CoreState C) (b : AnyBox) : Nat × CoreState C :=
  let p := st.objects.put (some b)
  (p.1, { st with objects := p.2 })

/-- Model of `Core::remove`: `self.objects.take(object_id).unwrap_or(None)`. -/
def CoreState.remove {C : Type} (st : CoreState C) (i : Nat) :
    Option AnyBox × CoreState C :=
  let p := st.objects.take i
  (p.1.bind id, { st with objects := p.2 })

/-- Model of `Core::get::<T>`: the chain
`objects.get(id).and_then(Option::as_ref).map(Borrow::borrow).and_then(Any::downcast_ref)`. -/
def CoreState.getT {C : Type} (st : CoreState C) (tid i : Nat) : Option (List Nat) :=
  ((st.objects.get i).bind id).bind (downcastRef tid)

/-- Model of `Core::get_mut::<T>`: the chain
`objects.get_mut(id).and_then(Option::as_mut).map(BorrowMut::borrow_mut).and_then(Any::downcast_mut)`;
in the model a mutable borrow reads the same data as a shared one. -/
def CoreState.getMutT {C : Type} (st : CoreState C) (tid i : Nat) : Option (List Nat) :=
  ((st.objects.get i).bind id).bind (downcastRef tid)

/-- Model of `Core::internal_register`: allocate the next token, register the
source with the OS poller at that token (external effect, no `Core` field
changes), and insert the handler record.  The token `put` returns is the one
`next_index` predicted. -/
def CoreState.internal_register {C : Type} (st : CoreState C)
    (object_id : Nat) (read_fn write_fn : Option C) : Nat × CoreState C :=
  let p := st.io_handlers.put (some ⟨object_id, read_fn, write_fn⟩)
  (p.1, { st with io_handlers := p.2 })

/-- Model of `Core::register_reader`. -/
def CoreState.register_reader {C : Type} (st : CoreState C) (object_id : Nat)
    (f : C) : Nat × CoreState C :=
  st.internal_register object_id (some f) none

/-- Model of `Core::register_writer`. -/
def CoreState.register_writer {C : Type} (st : CoreState C) (object_id : Nat)
    (f : C) : Nat × CoreState C :=
  st.internal_register object_id none (some f)

/-- Model of `Core::register_reader_writer`. -/
def CoreState.register_reader_writer {C : Type} (st : CoreState C)
    (object_id : Nat) (f_read f_write : C) : Nat × CoreState C :=
  st.internal_register object_id (some f_read) (some f_write)

/-- Model of `Core::exit`. -/
def CoreState.setExit {C : Type} (st : CoreState C) : CoreState C :=
  { st with exit := true }

/-- Model of `Core::call_on_object`: take the object out of its slot (the
slot stays allocated, holding `None`), run the closure on it, and put it
back only if its slot still exists; the returned flag reports whether it was
put back. -/
def CoreState.call_on_object {C : Type} (st : CoreState C) (i : Nat)
    (f : AnyBox → CoreState C → AnyBox × CoreState C) : Bool × CoreState C :=
  match st.objects.takeInner i with
  | (some box, objs1) =>
    let r := f box { st with objects := objs1 }
    match r.2.objects.restoreInner i r.1 with
    | (true, objs2) => (true, { r.2 with objects := objs2 })
    | (false, _) => (false, r.2)
  | (none, _) => (false, st)

/-- The closure `Core::run` passes to `call_on_object` for one event: run the
read callback if the event is readable and a read callback is present, then
the write callback likewise. -/
def handlerBody {C : Type} (sem : Sem C) (ev : Event) (h : IoHandler C) :
    AnyBox → CoreState C → AnyBox × CoreState C :=
  fun box st =>
    let r1 :=
      match h.read_fn with
      | some rf => if ev.readable then sem rf box st else (box, st)
      | none => (box, st)
    match h.write_fn with
    | some wf => if ev.writable then sem wf r1.1 r1.2 else r1
    | none => r1

/-- The per-event body of `Core::run`: take the handler out of its slot
(slot stays allocated, holding `None`; skip the event if there is none),
dispatch through `call_on_object`, drop the handler's slot if the object no
longer exists, and restore the handler if its slot still exists. -/
def dispatchEvent {C : Type} (sem : Sem C) (ev : Event) (st : CoreState C) :
    CoreState C :=
  match st.io_handlers.takeInner ev.token with
  | (none, _) => st
  | (some h, hs1) =>
    let r := CoreState.call_on_object { st with io_handlers := hs1 }
      h.object_id (handlerBody sem ev h)
    let st3 :=
      if r.1 then r.2
      else { r.2 with io_handlers := (r.2.io_handlers.take ev.token).2 }
    { st3 with io_handlers := (st3.io_handlers.restoreInner ev.token h).2 }

/-- One poll batch is dispatched in the order the poller returned it
(`for event in &mio_events`). -/
def processBatch {C : Type} (sem : Sem C) (evs : List Event)
    (st : CoreState C) : CoreState C :=
  evs.foldl (fun s e => dispatchEvent sem e s) st

/-- Outcome of `Core::run` on a finite list of poll batches: either the loop
broke out (recording how many batches it consumed before returning), or it
is still waiting on the poller. -/
inductive RunResult (C : Type) where
  | returned (st : CoreState C) (batchesConsumed : Nat)
  | pending (st : CoreState C)
deriving DecidableEq, Repr

/-- Model of `Core::run`: at the top of each turn check
`self.exit || self.io_handlers.is_empty()` and break if it holds; otherwise
block on the poller (consume the next batch) and dispatch its events in
order. -/
def runCore {C : Type} (sem : Sem C) :
    List (List Event) → CoreState C → RunResult C
  | batches, st =>
    if st.exit || st.io_handlers.isEmpty then .returned st 0
    else
      match batches with
      | [] => .pending st
      | b :: rest =>
        match runCore sem rest (processBatch sem b st) with
        | .returned st2 n => .returned st2 (n + 1)
        | .pending st2 => .pending st2

/-! The POSIX process reaper (`src/process_unix.rs`). -/

/-- One return value of `libc::waitpid(pid, &mut status, WNOHANG)` as seen
by the loop in `reap`: `zero` is a 0 return (child still alive), `child` is
a positive return (the child's pid: it exited), `eintr` is a -1 return with
`EINTR`, `fail` a -1 return with any other error. -/
inductive WaitRes where
  | zero
  | child
  | eintr
  | fail
deriving DecidableEq, Repr

/-- Resolved outcome of `reap`: `alive` is `Ok(false)`, `exited` is
`Ok(true)`, `failed` is `Err(e)` with `e` not `EINTR`. -/
inductive ReapOutcome where
  | alive
  | exited
  | failed
deriving DecidableEq, Repr

/-- Model of `process_unix::reap`: loop over successive `waitpid` returns,
retrying on `EINTR`; `none` models the loop never getting a non-`EINTR`
answer within the oracle's list. -/
def reap : List WaitRes → Option ReapOutcome
  | [] => none
  | WaitRes.zero :: _ => some ReapOutcome.alive
  | WaitRes.child :: _ => some ReapOutcome.exited
  | WaitRes.eintr :: rest => reap rest
  | WaitRes.fail :: _ => some ReapOutcome.failed

/-- Model of `Core::register_reaper` / `process_unix::register_reaper`:
push a reaper entry at the back of the FIFO. -/
def CoreState.registerReaper {C : Type} (st : CoreState C) (pid object_id : Nat)
    (f : C) : CoreState C :=
  { st with reapers := st.reapers ++ [⟨pid, object_id, f⟩] }

/-- The scan loop of `process_unix::reap_all`, with the iteration count made
explicit (`for _ in 0..core.process_handler.reapers.len()`, which fixes the
count before the first iteration).  Each turn pops the front entry and
consults `reap`: still alive pushes it to the back, exited dispatches its
callback through `call_on_object` and drops it, a non-`EINTR` error logs and
drops it.  `wres` is the `waitpid` oracle (per pid, the successive returns
seen by `reap`'s retry loop).  The result is `none` if a `reap` never
resolves or the queue underflows (`pop_front().unwrap()`); otherwise it is
the final state together with the list of entries whose callbacks were
dispatched, in dispatch order. -/
def reapScan {C : Type} (sem : Sem C) (wres : Nat → List WaitRes) :
    Nat → CoreState C → Option (CoreState C × List (Reaper C))
  | 0, st => some (st, [])
  | k + 1, st =>
    match st.reapers with
    | [] => none
    | r :: rest =>
      match reap (wres r.pid) with
      | none => none
      | some ReapOutcome.alive =>
        reapScan sem wres k { st with reapers := rest ++ [r] }
      | some ReapOutcome.exited =>
        let p := CoreState.call_on_object { st with reapers := rest }
          r.object_id (sem r.callback)
        (reapScan sem wres k p.2).map (fun q => (q.1, r :: q.2))
      | some ReapOutcome.failed =>
        reapScan sem wres k { st with reapers := rest }

/-- Model of `process_unix::reap_all` (the `SIGCHLD` read callback): drain
all pending signals from the stream (external effect only), then scan the
reaper queue, with the iteration count fixed up front at the queue's
length. -/
def reap_all {C : Type} (sem : Sem C) (wres : Nat → List WaitRes)
    (st : CoreState C) : Option (CoreState C × List (Reaper C)) :=
  reapScan sem wres st.reapers.length st

/-- Several successive `SIGCHLD` wakeups, each with its own `waitpid`
oracle; traces are concatenated in order. -/
def reapScans {C : Type} (sem : Sem C) :
    List (Nat → List WaitRes) → CoreState C → Option (CoreState C × List (Reaper C))
  | [], st => some (st, [])
  | w :: ws, st =>
    match reap_all sem w st with
    | none => none
    | some (st1, tr1) =>
      (reapScans sem ws st1).map (fun q => (q.1, tr1 ++ q.2))

/-- A callback semantics that never touches the reaper queue (user callbacks
have no API to remove reaper entries; this also rules out re-registration,
which would be a fresh arrangement). -/
def ReaperPreserving {C : Type} (sem : Sem C) : Prop :=
  ∀ c b s, ((sem c b s).2).reapers = s.reapers

/-- `still alive` test for a reaper entry under a given oracle. -/
def aliveB {C : Type} (wres : Nat → List WaitRes) (r : Reaper C) : Bool :=
  decide (reap (wres r.pid) = some ReapOutcome.alive)

/-- `exited` test for a reaper entry under a given oracle. -/
def exitedB {C : Type} (wres : Nat → List WaitRes) (r : Reaper C) : Bool :=
  decide (reap (wres r.pid) = some ReapOutcome.exited)

/-! Construction and child spawning (`new_core`, `Core::spawn`,
`new_child`, `make_nonblocking`). -/

/-- The runtime type tag of the `signal_hook::iterator::Signals` stream that
`new_core` stores in the object store. -/
def signalsTypeId : Nat := 0

/-- The boxed `Signals` stream as it sits in the object store. -/
def signalsBox : AnyBox := ⟨signalsTypeId, []⟩

/-- Model of `process_unix::new_core`.  `sigRes` and `pollRes` are the
outcomes of `Signals::new(&[SIGCHLD])` and `Poll::new()`; the source calls
`.unwrap()` on both, so a failure of either is a panic, modelled as `none`
(no `Core` value ever reaches the caller).  On success the signal stream is
registered as a reader at the predicted next object id and then added to the
object store. -/
def new_core {C : Type} (reapAllCb : C) (sigRes pollRes : Option Unit) :
    Option (CoreState C) :=
  match sigRes with
  | none => none
  | some _ =>
    match pollRes with
    | none => none
    | some _ =>
      let st0 : CoreState C := ⟨⟨[]⟩, ⟨[]⟩, false, []⟩
      let nid := st0.next_id
      let st1 := (st0.register_reader nid reapAllCb).2
      let st2 := (st1.add signalsBox).2
      some st2

/-- Model of a spawned child (`Child`): just its pid; the three stdio
handles are non-blocking pollable sources owned by the value. -/
structure ChildM where
  pid : Nat
deriving DecidableEq, Repr

/-- Model of `process_unix::make_nonblocking`: `fcntl(F_GETFL)` then
`fcntl(F_SETFL, flags | O_NONBLOCK)`, each propagating its error to the
caller via `io::Result`.  `gRes` is the `F_GETFL` outcome (the flags), and
`sRes` the `F_SETFL` outcome as a function of the flag word written. -/
def make_nonblocking (gRes : Except Nat Nat) (sRes : Nat → Except Nat Unit) :
    Except Nat Unit :=
  match gRes with
  | Except.error e => Except.error e
  | Except.ok flags =>
    match sRes (Nat.lor flags 2048) with
    | Except.error e => Except.error e
    | Except.ok _ => Except.ok ()

/-- Model of `process_unix::new_child`: make each of the three stdio handles
non-blocking, propagating the first failure (`?`), and wrap them.  `r1 r2 r3`
are the outcomes of the three `make_nonblocking` calls. -/
def new_child (pid : Nat) (r1 r2 r3 : Except Nat Unit) : Except Nat ChildM :=
  match r1 with
  | Except.error e => Except.error e
  | Except.ok _ =>
    match r2 with
    | Except.error e => Except.error e
    | Except.ok _ =>
      match r3 with
      | Except.error e => Except.error e
      | Except.ok _ => Except.ok ⟨pid⟩

/-- Model of `Core::spawn`: force piped stdio, run `cmd.spawn()?`
(`spawnRes`, yielding the child's pid), then `new_child`.  Every failure is
returned to the caller as the `Err` of an `io::Result`. -/
def spawnCore (spawnRes : Except Nat Nat) (r1 r2 r3 : Except Nat Unit) :
    Except Nat ChildM :=
  match spawnRes with
  | Except.error e => Except.error e
  | Except.ok pid => new_child pid r1 r2 r3

/-- Model of `WebSocketServer::new` in the websocket collaborator crate:
`TcpListener::bind(&socket_address)?` propagates a bind failure to the
caller as a `Result`. -/
def serverNew (bindRes : Except Nat Unit) : Except Nat Unit :=
  match bindRes with
  | Except.error e => Except.error e
  | Except.ok _ => Except.ok ()

/-! The take/restore discipline of the dispatcher, as standalone states. -/

/-- The reactor state as the callback sees it: the handler has been moved
out of its slot at `tok` (the slot stays allocated, holding `None`) and the
object has been moved out of its slot at `objId` likewise. -/
def duringState {C : Type} (st : CoreState C) (tok objId : Nat) : CoreState C :=
  { st with
    io_handlers := (st.io_handlers.takeInner tok).2,
    objects := (st.objects.takeInner objId).2 }

/-- What the dispatcher does with the callback's result: restore the object
if its slot still exists, otherwise mark the object gone; if the object is
gone, drop the handler's slot; finally restore the handler if its slot still
exists. -/
def afterCallback {C : Type} (tok objId : Nat) (h : IoHandler C)
    (r : AnyBox × CoreState C) : CoreState C :=
  let p :=
    match r.2.objects.restoreInner objId r.1 with
    | (true, objs2) => (true, { r.2 with objects := objs2 })
    | (false, _) => (false, r.2)
  let st3 :=
    if p.1 then p.2
    else { p.2 with io_handlers := (p.2.io_handlers.take tok).2 }
  { st3 with io_handlers := (st3.io_handlers.restoreInner tok h).2 }

/-- The state after an event found its handler but not its object: the
handler's slot is first emptied (take), then deallocated (the orphan
branch), and the restore finds no slot. -/
def orphanDrop {C : Type} (st : CoreState C) (tok : Nat) : CoreState C :=
  { st with io_handlers := (((st.io_handlers.takeInner tok).2).take tok).2 }

/-- Read callback first, then write callback, threading object and state. -/
def readWriteSeq {C : Type} (sem : Sem C) (rf wf : C) (box : AnyBox)
    (st : CoreState C) : AnyBox × CoreState C :=
  let r := sem rf box st
  sem wf r.1 r.2

/-! Concrete instantiation used by the witnesses: callback codes are `Nat`,
and a callback appends its own code to its object's payload (so dispatch
order is visible in the object). -/

/-- Tracing callback semantics: callback `c` appends `c` to the payload of
the object it is invoked on and leaves the reactor untouched. -/
def traceSem : Sem Nat := fun c b s => ({ b with value := b.value ++ [c] }, s)

/-- Callback semantics modelling a callback that calls `core.exit()`. -/
def exitSem : Sem Nat := fun _ b s => (b, { s with exit := true })

def objW : AnyBox := ⟨5, [7]⟩

def objW2 : AnyBox := ⟨6, [9]⟩

def objW3 : AnyBox := ⟨5, [7, 3]⟩

def hW : IoHandler Nat := ⟨0, some 1, some 2⟩

def evW : Event := ⟨0, true, true⟩

def stW : CoreState Nat := ⟨⟨[some (some hW)]⟩, ⟨[some (some objW)]⟩, false, []⟩

def stOrphan : CoreState Nat := ⟨⟨[some (some hW)]⟩, ⟨[]⟩, false, []⟩

def stExit : CoreState Nat := ⟨⟨[some (some hW)]⟩, ⟨[some (some objW)]⟩, true, []⟩

def stHN : CoreState Nat := ⟨⟨[some none]⟩, ⟨[]⟩, false, []⟩

def stTaken : CoreState Nat := ⟨⟨[]⟩, ⟨[some none]⟩, false, []⟩

def reaperW : Reaper Nat := ⟨10, 0, 3⟩

def stR : CoreState Nat := ⟨⟨[]⟩, ⟨[some (some objW)]⟩, false, [reaperW]⟩

def stRAfter : CoreState Nat := ⟨⟨[]⟩, ⟨[some (some objW3)]⟩, false, []⟩

def outR : CoreState Nat × List (Reaper Nat) := (stRAfter, [reaperW])

def wAlive : Nat → List WaitRes := fun _ => [WaitRes.zero]

def wExited : Nat → List WaitRes := fun _ => [WaitRes.child]

def wFailed : Nat → List WaitRes := fun _ => [WaitRes.fail]

/-! Basic facts about slot lists. -/

theorem listGetDSetSelf {α : Type} (d x : α) :
    ∀ (l : List α) (i : Nat), i < l.length → (l.set i x).getD i d = x := by
  intro l
  induction l with
  | nil => intro i h; simp at h
  | cons a l ih =>
    intro i h
    cases i with
    | zero => rfl
    | succ n =>
      simp only [List.set, List.getD, List.get?]
      exact ih n (by simpa using h)

theorem listGetDSetNe {α : Type} (d x : α) :
    ∀ (l : List α) (i j : Nat), i ≠ j → (l.set i x).getD j d = l.getD j d := by
  intro l
  induction l with
  | nil => intro i j _; cases i <;> rfl
  | cons a l ih =>
    intro i j hne
    cases i with
    | zero =>
      cases j with
      | zero => exact absurd rfl hne
      | succ m => rfl
    | succ n =>
      cases j with
      | zero => rfl
      | succ m =>
        simp only [List.set, List.getD, List.get?]
        exact ih n m (fun h => hne (by rw [h]))

theorem listGetDAppendLt {α : Type} (d x : α) :
    ∀ (l : List α) (i : Nat), i < l.length → (l ++ [x]).getD i d = l.getD i d := by
  intro l
  induction l with
  | nil => intro i h; simp at h
  | cons a l ih =>
    intro i h
    cases i with
    | zero => rfl
    | succ n => exact ih n (by simpa using h)

theorem listGetDAppendSelf {α : Type} (d x : α) :
    ∀ (l : List α), (l ++ [x]).getD l.length d = x := by
  intro l
  induction l with
  | nil => rfl
  | cons a l ih => exact ih

theorem listGetDGe {α : Type} (d : α) :
    ∀ (l : List α) (i : Nat), l.length ≤ i → l.getD i d = d := by
  intro l
  induction l with
  | nil => intro i _; cases i <;> rfl
  | cons a l ih =>
    intro i h
    cases i with
    | zero => simp at h
    | succ n => exact ih n (by simpa using h)

theorem listLengthSet {α : Type} (x : α) :
    ∀ (l : List α) (i : Nat), (l.set i x).length = l.length := by
  intro l i
  exact l.length_set i x

/-- The slot at the first free index is indeed free. -/
theorem findFreeIdx_get {V : Type} :
    ∀ (l : List (Option V)), l.getD (findFreeIdx l) none = none := by
  intro l
  induction l with
  | nil => rfl
  | cons a l ih =>
    cases a with
    | none => rfl
    | some v => exact ih

theorem findFreeIdx_le_length {V : Type} :
    ∀ (l : List (Option V)), findFreeIdx l ≤ l.length := by
  intro l
  induction l with
  | nil => exact Nat.le_refl 0
  | cons a l ih =>
    cases a with
    | none => exact Nat.zero_le _
    | some v => exact Nat.succ_le_succ ih

/-- `next_index` always denotes a free slot. -/
theorem Stash.get_nextIndex {V : Type} (s : Stash V) : s.get s.nextIndex = none :=
  findFreeIdx_get s.data

/-- An occupied slot is in range. -/
theorem Stash.lt_of_get_some {V : Type} (s : Stash V) (i : Nat) (v : V)
    (h : s.get i = some v) : i < s.data.length := by
  by_contra hge
  have : s.data.getD i none = none := listGetDGe none s.data i (Nat.le_of_not_lt hge)
  rw [Stash.get, this] at h
  exact Option.noConfusion h

/-- `next_index` never denotes an occupied slot. -/
theorem Stash.nextIndex_ne_occupied {V : Type} (s : Stash V) (i : Nat) (v : V)
    (h : s.get i = some v) : s.nextIndex ≠ i := by
  intro heq
  rw [← heq] at h
  rw [s.get_nextIndex] at h
  exact Option.noConfusion h

/-- `put` stores its value at the index it returns. -/
theorem Stash.get_put_self {V : Type} (s : Stash V) (v : V) :
    (s.put v).2.get (s.put v).1 = some v := by
  unfold Stash.put
  by_cases h : s.nextIndex < s.data.length
  · simp only [h, if_true]
    exact listGetDSetSelf none (some v) s.data s.nextIndex h
  · simp only [h, if_false]
    have hlen : s.nextIndex = s.data.length :=
      Nat.le_antisymm (findFreeIdx_le_length s.data) (Nat.le_of_not_lt h)
    show (s.data ++ [some v]).getD s.nextIndex none = some v
    rw [hlen]
    exact listGetDAppendSelf none (some v) s.data

/-- `put` returns `next_index`. -/
theorem Stash.put_fst {V : Type} (s : Stash V) (v : V) :
    (s.put v).1 = s.nextIndex := by
  unfold Stash.put
  by_cases h : s.nextIndex < s.data.length <;> simp [h]

/-- `put` leaves every other slot unchanged. -/
theorem Stash.get_put_ne {V : Type} (s : Stash V) (v : V) (i : Nat)
    (h : (s.put v).1 ≠ i) : (s.put v).2.get i = s.get i := by
  have hfst : (s.put v).1 = s.nextIndex := s.put_fst v
  rw [hfst] at h
  unfold Stash.put
  by_cases hlt : s.nextIndex < s.data.length
  · simp only [hlt, if_true]
    exact listGetDSetNe none (some v) s.data s.nextIndex i h
  · simp only [hlt, if_false]
    have hlen : s.nextIndex = s.data.length :=
      Nat.le_antisymm (findFreeIdx_le_length s.data) (Nat.le_of_not_lt hlt)
    show (s.data ++ [some v]).getD i none = s.data.getD i none
    by_cases hi : i < s.data.length
    · exact listGetDAppendLt none (some v) s.data i hi
    · have h1 : s.data.getD i none = none := listGetDGe none s.data i (Nat.le_of_not_lt hi)
      have h2 : (s.data ++ [some v]).getD i none = none := by
        apply listGetDGe
        have : i ≠ s.data.length := fun hh => h (by rw [hlen, hh])
        have : s.data.length < i := Nat.lt_of_le_of_ne (Nat.le_of_not_lt hi) (Ne.symm this)
        simpa using this
      rw [h1, h2]

/-- `put` preserves occupied slots. -/
theorem Stash.get_put_occupied {V : Type} (s : Stash V) (v : V) (i : Nat) (x : V)
    (h : s.get i = some x) : (s.put v).2.get i = some x := by
  rw [Stash.get_put_ne s v i, h]
  rw [s.put_fst v]
  exact s.nextIndex_ne_occupied i x h

/-! Conditional reduction lemmas for the slot-table operations. -/

theorem Stash.takeInner_of_some {X : Type} (s : Stash (Option X)) (i : Nat) (v : X)
    (h : s.get i = some (some v)) :
    s.takeInner i = (some v, ⟨s.data.set i (some none)⟩) := by
  unfold Stash.takeInner
  rw [h]

theorem Stash.takeInner_of_absent {X : Type} (s : Stash (Option X)) (i : Nat)
    (h : (s.get i).bind id = none) : s.takeInner i = (none, s) := by
  unfold Stash.takeInner
  cases hg : s.get i with
  | none => rfl
  | some o =>
    cases o with
    | none => rfl
    | some v =>
      rw [hg] at h
      exact Option.noConfusion h

theorem Stash.restoreInner_of_some {X : Type} (s : Stash (Option X)) (i : Nat)
    (x : Option X) (v : X) (h : s.get i = some x) :
    s.restoreInner i v = (true, ⟨s.data.set i (some (some v))⟩) := by
  unfold Stash.restoreInner
  rw [h]

theorem Stash.restoreInner_of_none {X : Type} (s : Stash (Option X)) (i : Nat)
    (v : X) (h : s.get i = none) : s.restoreInner i v = (false, s) := by
  unfold Stash.restoreInner
  rw [h]

theorem Stash.take_of_some {V : Type} (s : Stash V) (i : Nat) (v : V)
    (h : s.get i = some v) : s.take i = (some v, ⟨s.data.set i none⟩) := by
  unfold Stash.take
  rw [h]

theorem Stash.take_of_none {V : Type} (s : Stash V) (i : Nat)
    (h : s.get i = none) : s.take i = (none, s) := by
  unfold Stash.take
  rw [h]

/-- Unfolding of the per-event dispatch when both the handler and the object
are present: the callback body runs on exactly `duringState`, and the
dispatcher post-processes its result with `afterCallback`. -/
theorem dispatch_unfold {C : Type} (sem : Sem C) (ev : Event) (st : CoreState C)
    (h : IoHandler C) (box : AnyBox)
    (hh : st.io_handlers.get ev.token = some (some h))
    (hb : st.objects.get h.object_id = some (some box)) :
    dispatchEvent sem ev st =
      afterCallback ev.token h.object_id h
        (handlerBody sem ev h box (duringState st ev.token h.object_id)) := by
  unfold dispatchEvent
  rw [Stash.takeInner_of_some st.io_handlers ev.token h hh]
  unfold CoreState.call_on_object
  dsimp only
  rw [Stash.takeInner_of_some st.objects h.object_id box hb]
  unfold afterCallback duringState
  rw [Stash.takeInner_of_some st.io_handlers ev.token h hh,
    Stash.takeInner_of_some st.objects h.object_id box hb]

/-- Unfolding of the per-event dispatch when the handler is present but its
object is gone: no callback code is consulted, the handler's slot is taken
and then deallocated, and the final restore finds no slot. -/
theorem dispatch_orphan {C : Type} (sem : Sem C) (ev : Event) (st : CoreState C)
    (h : IoHandler C)
    (hh : st.io_handlers.get ev.token = some (some h))
    (hb : (st.objects.get h.object_id).bind id = none) :
    dispatchEvent sem ev st = orphanDrop st ev.token := by
  have hlt : ev.token < st.io_handlers.data.length :=
    Stash.lt_of_get_some st.io_handlers ev.token (some h) hh
  unfold dispatchEvent
  rw [Stash.takeInner_of_some st.io_handlers ev.token h hh]
  unfold CoreState.call_on_object
  dsimp only
  rw [Stash.takeInner_of_absent st.objects h.object_id hb]
  dsimp only
  have hget1 : (Stash.mk (st.io_handlers.data.set ev.token (some none)) :
      Stash (Option (IoHandler C))).get ev.token = some none :=
    listGetDSetSelf none (some none) st.io_handlers.data ev.token hlt
  rw [Stash.take_of_some _ ev.token none hget1]
  dsimp only
  have hget2 : (Stash.mk ((st.io_handlers.data.set ev.token (some none)).set
      ev.token none) : Stash (Option (IoHandler C))).get ev.token = none :=
    listGetDSetSelf none none _ ev.token (by rw [List.length_set]; exact hlt)
  simp only [Bool.false_eq_true, if_false]
  rw [Stash.restoreInner_of_none _ ev.token h hget2]
  unfold orphanDrop
  rw [Stash.takeInner_of_some st.io_handlers ev.token h hh]
  dsimp only
  rw [Stash.take_of_some _ ev.token none hget1]

/-- C1.  Take/restore dispatch discipline: when `run` delivers an event whose
handler and target object are both present, the dispatcher first moves the
handler record out of its slot (leaving the slot allocated but holding
`None`), then moves the object out of its slot, runs the callback body on
exactly that taken state, and afterwards conditionally restores object and
handler only if their slots still exist (`afterCallback`).  While the
callback executes, the handler's slot reads as empty and the object is
unobservable: `get` at the object's id returns `none` at every type. -/
theorem c1_take_restore_discipline {C : Type} (sem : Sem C) (ev : Event)
    (st : CoreState C) (h : IoHandler C) (box : AnyBox)
    (hh : st.io_handlers.get ev.token = some (some h))
    (hb : st.objects.get h.object_id = some (some box)) :
    dispatchEvent sem ev st =
      afterCallback ev.token h.object_id h
        (handlerBody sem ev h box (duringState st ev.token h.object_id))
    ∧ (duringState st ev.token h.object_id).io_handlers.get ev.token = some none
    ∧ (duringState st ev.token h.object_id).objects.get h.object_id = some none
    ∧ ∀ tid, (duringState st ev.token h.object_id).getT tid h.object_id = none := by
  have hlt : ev.token < st.io_handlers.data.length :=
    Stash.lt_of_get_some st.io_handlers ev.token (some h) hh
  have hlt2 : h.object_id < st.objects.data.length :=
    Stash.lt_of_get_some st.objects h.object_id (some box) hb
  have hhand : (duringState st ev.token h.object_id).io_handlers.get ev.token
      = some none := by
    unfold duringState
    rw [Stash.takeInner_of_some st.io_handlers ev.token h hh]
    exact listGetDSetSelf none (some none) st.io_handlers.data ev.token hlt
  have hobj : (duringState st ev.token h.object_id).objects.get h.object_id
      = some none := by
    unfold duringState
    rw [Stash.takeInner_of_some st.objects h.object_id box hb]
    exact listGetDSetSelf none (some none) st.objects.data h.object_id hlt2
  refine ⟨dispatch_unfold sem ev st h box hh hb, hhand, hobj, ?_⟩
  intro tid
  unfold CoreState.getT
  rw [hobj]
  rfl

/-- C3.  Orphan-handler cleanup: when an event arrives for a handler whose
`object_id` no longer holds an object (the slot is gone, or holds nothing),
no callback is invoked — the dispatch result is the same for every callback
semantics — and the handler is removed from the handler table rather than
restored; the object store and all other handler slots are untouched. -/
theorem c3_orphan_cleanup {C : Type} (ev : Event) (st : CoreState C)
    (h : IoHandler C)
    (hh : st.io_handlers.get ev.token = some (some h))
    (hb : (st.objects.get h.object_id).bind id = none) :
    (∀ sem : Sem C, dispatchEvent sem ev st = orphanDrop st ev.token)
    ∧ (orphanDrop st ev.token).io_handlers.get ev.token = none
    ∧ (orphanDrop st ev.token).objects = st.objects
    ∧ ∀ tok', tok' ≠ ev.token →
        (orphanDrop st ev.token).io_handlers.get tok' = st.io_handlers.get tok' := by
  have hlt : ev.token < st.io_handlers.data.length :=
    Stash.lt_of_get_some st.io_handlers ev.token (some h) hh
  refine ⟨fun sem => dispatch_orphan sem ev st h hh hb, ?_, rfl, ?_⟩
  · unfold orphanDrop
    rw [Stash.takeInner_of_some st.io_handlers ev.token h hh]
    dsimp only
    have hget1 : (Stash.mk (st.io_handlers.data.set ev.token (some none)) :
        Stash (Option (IoHandler C))).get ev.token = some none :=
      listGetDSetSelf none (some none) st.io_handlers.data ev.token hlt
    rw [Stash.take_of_some _ ev.token none hget1]
    exact listGetDSetSelf none none _ ev.token (by rw [List.length_set]; exact hlt)
  · intro tok' hne
    unfold orphanDrop
    rw [Stash.takeInner_of_some st.io_handlers ev.token h hh]
    dsimp only
    have hget1 : (Stash.mk (st.io_handlers.data.set ev.token (some none)) :
        Stash (Option (IoHandler C))).get ev.token = some none :=
      listGetDSetSelf none (some none) st.io_handlers.data ev.token hlt
    rw [Stash.take_of_some _ ev.token none hget1]
    show ((st.io_handlers.data.set ev.token (some none)).set ev.token none).getD
        tok' none = st.io_handlers.data.getD tok' none
    rw [listGetDSetNe none none _ ev.token tok' (fun hx => hne hx.symm),
      listGetDSetNe none (some none) _ ev.token tok' (fun hx => hne hx.symm)]

/-! Termination structure of `Core::run`. -/

/-- If the break condition holds on entry to a loop turn, `run` returns at
once, consuming no poll batch. -/
theorem runCore_of_cond {C : Type} (sem : Sem C) (batches : List (List Event))
    (st : CoreState C) (hc : (st.exit || st.io_handlers.isEmpty) = true) :
    runCore sem batches st = RunResult.returned st 0 := by
  cases batches with
  | nil => unfold runCore; rw [if_pos hc]
  | cons b rest => unfold runCore; rw [if_pos hc]

/-- Whenever `run` returns, the state it returns satisfies the break
condition: the exit flag is set or the handler table is empty. -/
theorem runCore_returned_cond {C : Type} (sem : Sem C) :
    ∀ (batches : List (List Event)) (st st' : CoreState C) (n : Nat),
      runCore sem batches st = RunResult.returned st' n →
      st'.exit = true ∨ st'.io_handlers.isEmpty = true := by
  intro batches
  induction batches with
  | nil =>
    intro st st' n hrun
    unfold runCore at hrun
    by_cases hc : (st.exit || st.io_handlers.isEmpty) = true
    · rw [if_pos hc] at hrun
      cases hrun
      exact Bool.or_eq_true_iff.mp hc
    · rw [if_neg hc] at hrun
      exact RunResult.noConfusion hrun
  | cons b rest ih =>
    intro st st' n hrun
    unfold runCore at hrun
    by_cases hc : (st.exit || st.io_handlers.isEmpty) = true
    · rw [if_pos hc] at hrun
      cases hrun
      exact Bool.or_eq_true_iff.mp hc
    · rw [if_neg hc] at hrun
      dsimp only at hrun
      cases hrec : runCore sem rest (processBatch sem b st) with
      | returned st2 m =>
        rw [hrec] at hrun
        injection hrun with ha hb
        subst ha
        exact ih (processBatch sem b st) st2 m hrec
      | pending st2 =>
        rw [hrec] at hrun
        exact RunResult.noConfusion hrun

/-- C2.  `run` returns exactly when the exit flag is set or the handler
table is empty, with the check at the top of each loop turn: (i) whenever it
returns, the returned state satisfies the condition; (ii) if the condition
holds on entry, it returns immediately, consuming zero poll batches; (iii)
if the condition fails on entry but the current batch's callbacks set the
exit flag, `run` returns right after that batch, having consumed exactly
one more batch. -/
theorem c2_run_returns_on_exit_or_empty {C : Type} (sem : Sem C) :
    (∀ (batches : List (List Event)) (st st' : CoreState C) (n : Nat),
        runCore sem batches st = RunResult.returned st' n →
        st'.exit = true ∨ st'.io_handlers.isEmpty = true)
    ∧ (∀ (batches : List (List Event)) (st : CoreState C),
        (st.exit || st.io_handlers.isEmpty) = true →
        runCore sem batches st = RunResult.returned st 0)
    ∧ (∀ (b : List Event) (rest : List (List Event)) (st : CoreState C),
        (st.exit || st.io_handlers.isEmpty) = false →
        (processBatch sem b st).exit = true →
        runCore sem (b :: rest) st =
          RunResult.returned (processBatch sem b st) 1) := by
  refine ⟨runCore_returned_cond sem, runCore_of_cond sem, ?_⟩
  intro b rest st hc hexit
  have hc' : ¬ (st.exit || st.io_handlers.isEmpty) = true := by
    rw [hc]; exact Bool.false_ne_true
  unfold runCore
  rw [if_neg hc']
  dsimp only
  have hrec : runCore sem rest (processBatch sem b st) =
      RunResult.returned (processBatch sem b st) 0 :=
    runCore_of_cond sem rest (processBatch sem b st)
      (by rw [hexit]; rfl)
  rw [hrec]

/-! Dispatch ordering. -/

/-- When an event is both readable and writable and the handler carries both
callbacks, the per-event body is exactly the read callback followed by the
write callback. -/
theorem handlerBody_rw {C : Type} (sem : Sem C) (ev : Event) (h : IoHandler C)
    (rf wf : C) (hr : ev.readable = true) (hw : ev.writable = true)
    (hrf : h.read_fn = some rf) (hwf : h.write_fn = some wf) :
    ∀ (box : AnyBox) (stD : CoreState C),
      handlerBody sem ev h box stD = readWriteSeq sem rf wf box stD := by
  intro box stD
  unfold handlerBody readWriteSeq
  rw [hrf, hwf, hr, hw]
  simp only [if_true]

/-- C6.  Read-before-write tie-break and batch order: (i) for a single event
whose readiness includes both readable and writable and whose handler has
both callbacks, the dispatched body is the read callback first, then the
write callback on its output; (ii) a poll batch is dispatched event by event
in the order the poller returned it; (iii) consequently the full per-event
dispatch under those hypotheses runs read-then-write on the taken state. -/
theorem c6_read_before_write {C : Type} (sem : Sem C) :
    (∀ (ev : Event) (h : IoHandler C) (rf wf : C),
        ev.readable = true → ev.writable = true →
        h.read_fn = some rf → h.write_fn = some wf →
        ∀ (box : AnyBox) (stD : CoreState C),
          handlerBody sem ev h box stD = readWriteSeq sem rf wf box stD)
    ∧ (∀ (e : Event) (es : List Event) (st : CoreState C),
        processBatch sem (e :: es) st = processBatch sem es (dispatchEvent sem e st))
    ∧ (∀ (ev : Event) (st : CoreState C) (h : IoHandler C) (box : AnyBox) (rf wf : C),
        st.io_handlers.get ev.token = some (some h) →
        st.objects.get h.object_id = some (some box) →
        ev.readable = true → ev.writable = true →
        h.read_fn = some rf → h.write_fn = some wf →
        dispatchEvent sem ev st =
          afterCallback ev.token h.object_id h
            (readWriteSeq sem rf wf box (duringState st ev.token h.object_id))) := by
  refine ⟨fun ev h rf wf hr hw hrf hwf => handlerBody_rw sem ev h rf wf hr hw hrf hwf,
    fun e es st => rfl, ?_⟩
  intro ev st h box rf wf hh hb hr hw hrf hwf
  rw [dispatch_unfold sem ev st h box hh hb,
    handlerBody_rw sem ev h rf wf hr hw hrf hwf]

/-! Freshness of registered tokens. -/

/-- C10.  While a callback executes for some token, that token's slot in the
handler table remains allocated (holding the empty marker), so (i) the taken
state reads `some none` at the token; (ii) any `internal_register` performed
in such a state allocates a token distinct from it (the fresh token is never
an allocated slot); (iii) registration keeps the dispatched token's slot
allocated-but-empty, so chained registrations stay distinct from it too; and
(iv) the conditional restore writes only at its own token, leaving every
other handler slot unchanged — it can never overwrite a handler the
callback newly registered. -/
theorem c10_fresh_token_no_overwrite {C : Type} :
    (∀ (st : CoreState C) (tok objId : Nat) (h : IoHandler C),
        st.io_handlers.get tok = some (some h) →
        (duringState st tok objId).io_handlers.get tok = some none)
    ∧ (∀ (s : CoreState C) (oid : Nat) (rf wf : Option C) (tok : Nat),
        s.io_handlers.get tok = some none →
        (s.internal_register oid rf wf).1 ≠ tok)
    ∧ (∀ (s : CoreState C) (oid : Nat) (rf wf : Option C) (tok : Nat),
        s.io_handlers.get tok = some none →
        ((s.internal_register oid rf wf).2).io_handlers.get tok = some none)
    ∧ (∀ (hs : Stash (Option (IoHandler C))) (tok tok' : Nat) (h : IoHandler C),
        tok' ≠ tok →
        ((hs.restoreInner tok h).2).get tok' = hs.get tok') := by
  refine ⟨?_, ?_, ?_, ?_⟩
  · intro st tok objId h hh
    have hlt : tok < st.io_handlers.data.length :=
      Stash.lt_of_get_some st.io_handlers tok (some h) hh
    unfold duringState
    rw [Stash.takeInner_of_some st.io_handlers tok h hh]
    exact listGetDSetSelf none (some none) st.io_handlers.data tok hlt
  · intro s oid rf wf tok hocc
    unfold CoreState.internal_register
    dsimp only
    rw [Stash.put_fst]
    exact s.io_handlers.nextIndex_ne_occupied tok none hocc
  · intro s oid rf wf tok hocc
    unfold CoreState.internal_register
    dsimp only
    exact Stash.get_put_occupied s.io_handlers _ tok none hocc
  · intro hs tok tok' h hne
    unfold Stash.restoreInner
    cases hg : hs.get tok with
    | none => rfl
    | some x =>
      show ((hs.data.set tok (some (some h))).getD tok' none) = hs.get tok'
      exact listGetDSetNe none (some (some h)) hs.data tok tok' (fun hx => hne hx.symm)

/-! Object-store visibility. -/

/-- C4.  Object visibility: (i) `get::<T>(i)` is absent exactly when the
slot is empty, the object is temporarily taken for dispatch, or the stored
object's runtime type differs from `T`; (ii) immediately after `add`, `get`
at the stored type returns the stored value; (iii) `add` never disturbs an
occupied slot; (iv) `remove` of a different id never disturbs the slot;
(v) a slot taken for an in-flight dispatch reads absent at every type; and
(vi) `get_mut` sees exactly what `get` sees. -/
theorem c4_object_visibility {C : Type} :
    (∀ (st : CoreState C) (tid i : Nat),
        st.getT tid i = none ↔
          st.objects.get i = none ∨ st.objects.get i = some none ∨
            ∃ b, st.objects.get i = some (some b) ∧ b.typeId ≠ tid)
    ∧ (∀ (st : CoreState C) (b : AnyBox),
        ((st.add b).2).getT b.typeId (st.add b).1 = some b.value)
    ∧ (∀ (st : CoreState C) (b : AnyBox) (i : Nat) (x : Option AnyBox),
        st.objects.get i = some x → ((st.add b).2).objects.get i = some x)
    ∧ (∀ (st : CoreState C) (i j : Nat), i ≠ j →
        ((st.remove j).2).objects.get i = st.objects.get i)
    ∧ (∀ (st : CoreState C) (tid i : Nat),
        st.objects.get i = some none → st.getT tid i = none)
    ∧ (∀ (st : CoreState C) (tid i : Nat), st.getMutT tid i = st.getT tid i) := by
  refine ⟨?_, ?_, ?_, ?_, ?_, fun st tid i => rfl⟩
  · intro st tid i
    unfold CoreState.getT downcastRef
    cases hg : st.objects.get i with
    | none => simp
    | some o =>
      cases o with
      | none => simp
      | some b =>
        by_cases ht : b.typeId = tid
        · simp [ht, Option.bind]
        · simp [ht, Option.bind]
  · intro st b
    unfold CoreState.add CoreState.getT
    dsimp only
    rw [Stash.get_put_self st.objects (some b)]
    unfold downcastRef
    simp
  · intro st b i x hx
    unfold CoreState.add
    dsimp only
    exact Stash.get_put_occupied st.objects (some b) i x hx
  · intro st i j hne
    unfold CoreState.remove Stash.take
    dsimp only
    cases hg : st.objects.get j with
    | none => rfl
    | some x =>
      show ((st.objects.data.set j none).getD i none) = st.objects.get i
      exact listGetDSetNe none none st.objects.data j i (fun hx => hne hx.symm)
  · intro st tid i hg
    unfold CoreState.getT
    rw [hg]
    rfl

/-- C5.  Add/remove round trip: `remove` after `add` returns the very value
that was added; afterwards the slot reads absent to `get`, `get_mut` and
`remove` (which is then a no-op), and it stays absent under further
`remove`s and under any `add` that assigns a different id. -/
theorem c5_add_remove_roundtrip {C : Type} :
    (∀ (st : CoreState C) (b : AnyBox),
        (((st.add b).2).remove (st.add b).1).1 = some b)
    ∧ (∀ (st : CoreState C) (b : AnyBox),
        ((((st.add b).2).remove (st.add b).1).2).objects.get (st.add b).1 = none)
    ∧ (∀ (st : CoreState C) (i : Nat), st.objects.get i = none →
        (∀ tid, st.getT tid i = none ∧ st.getMutT tid i = none)
        ∧ (st.remove i).1 = none ∧ (st.remove i).2 = st
        ∧ (∀ j, ((st.remove j).2).objects.get i = none)
        ∧ (∀ b', (st.add b').1 ≠ i → ((st.add b').2).objects.get i = none)) := by
  refine ⟨?_, ?_, ?_⟩
  · intro st b
    unfold CoreState.remove
    dsimp only
    rw [Stash.take_of_some _ _ (some b)
      (by unfold CoreState.add; dsimp only; exact Stash.get_put_self st.objects (some b))]
    rfl
  · intro st b
    have hocc : ((st.add b).2).objects.get (st.add b).1 = some (some b) := by
      unfold CoreState.add
      dsimp only
      rw [st.objects.put_fst (some b)]
      have := Stash.get_put_self st.objects (some b)
      rw [st.objects.put_fst (some b)] at this
      exact this
    have hlt : (st.add b).1 < ((st.add b).2).objects.data.length :=
      Stash.lt_of_get_some _ _ _ hocc
    unfold CoreState.remove
    dsimp only
    rw [Stash.take_of_some _ _ (some b) hocc]
    exact listGetDSetSelf none none _ _ hlt
  · intro st i hg
    refine ⟨?_, ?_, ?_, ?_, ?_⟩
    · intro tid
      constructor
      · unfold CoreState.getT; rw [hg]; rfl
      · unfold CoreState.getMutT; rw [hg]; rfl
    · unfold CoreState.remove
      rw [Stash.take_of_none st.objects i hg]
      rfl
    · unfold CoreState.remove
      rw [Stash.take_of_none st.objects i hg]
    · intro j
      unfold CoreState.remove Stash.take
      dsimp only
      cases hgj : st.objects.get j with
      | none => exact hg
      | some x =>
        show ((st.objects.data.set j none).getD i none) = none
        have hne : j ≠ i := by
          intro hx
          rw [hx, hg] at hgj
          exact Option.noConfusion hgj
        rw [listGetDSetNe none none st.objects.data j i hne]
        exact hg
    · intro b' hne
      unfold CoreState.add
      dsimp only
      have : ((st.objects.put (some b')).2).get i = st.objects.get i := by
        apply Stash.get_put_ne
        intro hx
        apply hne
        unfold CoreState.add
        dsimp only
        exact hx
      rw [this]
      exact hg

/-! The reaper scan. -/

/-- `call_on_object` never touches the reaper queue when the callback body
does not. -/
theorem call_on_object_reapers {C : Type} (st : CoreState C) (i : Nat)
    (f : AnyBox → CoreState C → AnyBox × CoreState C)
    (hf : ∀ b s, ((f b s).2).reapers = s.reapers) :
    ((st.call_on_object i f).2).reapers = st.reapers := by
  unfold CoreState.call_on_object
  rcases htk : st.objects.takeInner i with ⟨ob, objs1⟩
  cases ob with
  | none => rfl
  | some box =>
    dsimp only
    have hr : ((f box { st with objects := objs1 }).2).reapers = st.reapers :=
      hf box { st with objects := objs1 }
    rcases hres : ((f box { st with objects := objs1 }).2).objects.restoreInner i
        ((f box { st with objects := objs1 }).1) with ⟨bb, objs2⟩
    cases bb with
    | false =>
      dsimp only
      exact hr
    | true =>
      dsimp only
      exact hr

/-- One scan turn on a still-alive front entry rotates it to the back. -/
theorem reapScan_step_alive {C : Type} (sem : Sem C) (wres : Nat → List WaitRes)
    (st : CoreState C) (r : Reaper C) (rest : List (Reaper C)) (k : Nat)
    (hst : st.reapers = r :: rest)
    (hre : reap (wres r.pid) = some ReapOutcome.alive) :
    reapScan sem wres (k + 1) st =
      reapScan sem wres k { st with reapers := rest ++ [r] } := by
  conv_lhs => rw [reapScan]
  rw [hst]
  dsimp only
  rw [hre]

/-- One scan turn on an exited front entry dispatches its callback through
`call_on_object` (on the state with the entry already removed) and does not
re-enqueue it; the entry is recorded in the dispatch trace. -/
theorem reapScan_step_exited {C : Type} (sem : Sem C) (wres : Nat → List WaitRes)
    (st : CoreState C) (r : Reaper C) (rest : List (Reaper C)) (k : Nat)
    (hst : st.reapers = r :: rest)
    (hre : reap (wres r.pid) = some ReapOutcome.exited) :
    reapScan sem wres (k + 1) st =
      (reapScan sem wres k
        ((CoreState.call_on_object { st with reapers := rest }
          r.object_id (sem r.callback)).2)).map (fun q => (q.1, r :: q.2)) := by
  conv_lhs => rw [reapScan]
  rw [hst]
  dsimp only
  rw [hre]

/-- One scan turn on a front entry whose `waitpid` fails with a non-`EINTR`
error logs and drops exactly that entry; every other entry is untouched and
no callback runs. -/
theorem reapScan_step_failed {C : Type} (sem : Sem C) (wres : Nat → List WaitRes)
    (st : CoreState C) (r : Reaper C) (rest : List (Reaper C)) (k : Nat)
    (hst : st.reapers = r :: rest)
    (hre : reap (wres r.pid) = some ReapOutcome.failed) :
    reapScan sem wres (k + 1) st =
      reapScan sem wres k { st with reapers := rest } := by
  conv_lhs => rw [reapScan]
  rw [hst]
  dsimp only
  rw [hre]

/-- A scan never resolves when the front entry's `waitpid` never resolves. -/
theorem reapScan_step_stuck {C : Type} (sem : Sem C) (wres : Nat → List WaitRes)
    (st : CoreState C) (r : Reaper C) (rest : List (Reaper C)) (k : Nat)
    (hst : st.reapers = r :: rest)
    (hre : reap (wres r.pid) = none) :
    reapScan sem wres (k + 1) st = none := by
  conv_lhs => rw [reapScan]
  rw [hst]
  dsimp only
  rw [hre]

/-- The full-scan invariant: scanning `q.length` turns over a queue
`q ++ acc` (with `acc` the already-rotated survivors) checks each entry of
`q` exactly once, leaves exactly `acc` followed by the still-alive entries
of `q` in their original relative order, and dispatches exactly the exited
entries of `q`, in order. -/
theorem reapScan_rotation {C : Type} (sem : Sem C) (wres : Nat → List WaitRes)
    (hsem : ReaperPreserving sem) :
    ∀ (q acc : List (Reaper C)) (st : CoreState C), st.reapers = q ++ acc →
      ∀ out, reapScan sem wres q.length st = some out →
        out.1.reapers = acc ++ q.filter (aliveB wres)
        ∧ out.2 = q.filter (exitedB wres) := by
  intro q
  induction q with
  | nil =>
    intro acc st hst out hs
    rw [show ([] : List (Reaper C)).length = 0 from rfl] at hs
    rw [reapScan] at hs
    injection hs with hout
    subst hout
    rw [List.nil_append] at hst
    exact ⟨by rw [hst, List.filter_nil, List.append_nil], by rw [List.filter_nil]⟩
  | cons r q ih =>
    intro acc st hst out hs
    have hst' : st.reapers = r :: (q ++ acc) := hst
    rw [show (r :: q).length = q.length + 1 from rfl] at hs
    cases hre : reap (wres r.pid) with
    | none =>
      rw [reapScan_step_stuck sem wres st r (q ++ acc) q.length hst' hre] at hs
      exact Option.noConfusion hs
    | some o =>
      cases o with
      | alive =>
        rw [reapScan_step_alive sem wres st r (q ++ acc) q.length hst' hre] at hs
        have hreap2 : ({ st with reapers := (q ++ acc) ++ [r] } : CoreState C).reapers
            = q ++ (acc ++ [r]) := by
          dsimp only
          rw [List.append_assoc]
        obtain ⟨h1, h2⟩ := ih (acc ++ [r]) _ hreap2 out hs
        have hal : aliveB wres r = true := by
          unfold aliveB
          rw [hre]
          rfl
        have hex : exitedB wres r = false := by
          unfold exitedB
          rw [hre]
          rfl
        constructor
        · rw [h1]
          simp [List.filter_cons, hal, List.append_assoc]
        · rw [h2]
          simp [List.filter_cons, hex]
      | exited =>
        rw [reapScan_step_exited sem wres st r (q ++ acc) q.length hst' hre] at hs
        cases hrec : reapScan sem wres q.length
            ((CoreState.call_on_object { st with reapers := q ++ acc }
              r.object_id (sem r.callback)).2) with
        | none =>
          rw [hrec] at hs
          exact Option.noConfusion hs
        | some q2 =>
          rw [hrec] at hs
          dsimp only [Option.map] at hs
          injection hs with hout
          subst hout
          have hreap2 : ((CoreState.call_on_object { st with reapers := q ++ acc }
              r.object_id (sem r.callback)).2).reapers = q ++ acc :=
            call_on_object_reapers _ _ _ (fun b s => hsem r.callback b s)
          obtain ⟨h1, h2⟩ := ih acc _ hreap2 q2 hrec
          have hal : aliveB wres r = false := by
            unfold aliveB
            rw [hre]
            rfl
          have hex : exitedB wres r = true := by
            unfold exitedB
            rw [hre]
            rfl
          constructor
          · dsimp only
            rw [h1]
            simp [List.filter_cons, hal]
          · dsimp only
            rw [h2]
            simp [List.filter_cons, hex]
      | failed =>
        rw [reapScan_step_failed sem wres st r (q ++ acc) q.length hst' hre] at hs
        obtain ⟨h1, h2⟩ := ih acc { st with reapers := q ++ acc } rfl out hs
        have hal : aliveB wres r = false := by
          unfold aliveB
          rw [hre]
          rfl
        have hex : exitedB wres r = false := by
          unfold exitedB
          rw [hre]
          rfl
        constructor
        · rw [h1]
          simp [List.filter_cons, hal]
        · rw [h2]
          simp [List.filter_cons, hex]

/-- Full-scan characterisation of `reap_all`: the surviving queue is exactly
the still-alive entries in their original order, and the dispatch trace is
exactly the exited entries in their original order (so errored entries are
dropped without dispatch and without disturbing the others). -/
theorem reap_all_spec {C : Type} (sem : Sem C) (wres : Nat → List WaitRes)
    (hsem : ReaperPreserving sem) (st : CoreState C)
    (out : CoreState C × List (Reaper C)) (hs : reap_all sem wres st = some out) :
    out.1.reapers = st.reapers.filter (aliveB wres)
    ∧ out.2 = st.reapers.filter (exitedB wres) := by
  have h := reapScan_rotation sem wres hsem st.reapers [] st
    (by rw [List.append_nil]) out hs
  rw [List.nil_append] at h
  exact h

/-- Counting elements through two filters with disjoint tests never exceeds
counting them directly. -/
theorem countP_filter_disjoint_le {α : Type} (p q g : α → Bool)
    (hpq : ∀ a, p a = true → q a = false) :
    ∀ l : List α, (l.filter p).countP g + (l.filter q).countP g ≤ l.countP g := by
  intro l
  induction l with
  | nil => simp
  | cons a l ih =>
    by_cases hp : p a = true
    · have hq : q a = false := hpq a hp
      by_cases hg : g a = true
      · simp only [List.filter_cons, List.countP_cons, hp, hq, hg, if_true,
          Bool.false_eq_true, if_false]
        omega
      · simp only [List.filter_cons, List.countP_cons, hp, hq, hg, if_true,
          Bool.false_eq_true, if_false]
        omega
    · have hp' : p a = false := by
        cases hpc : p a with
        | false => rfl
        | true => exact absurd hpc hp
      by_cases hqq : q a = true
      · by_cases hg : g a = true
        · simp only [List.filter_cons, List.countP_cons, hp', hqq, hg, if_true,
            Bool.false_eq_true, if_false]
          omega
        · simp only [List.filter_cons, List.countP_cons, hp', hqq, hg, if_true,
            Bool.false_eq_true, if_false]
          omega
      · have hq' : q a = false := by
          cases hqc : q a with
          | false => rfl
          | true => exact absurd hqc hqq
        simp only [List.filter_cons, List.countP_cons, hp', hq',
          Bool.false_eq_true, if_false]
        omega

/-- Per-scan count bound: for any pid, dispatches plus survivors never
exceed the entries initially queued for it. -/
theorem reap_all_count {C : Type} (sem : Sem C) (wres : Nat → List WaitRes)
    (hsem : ReaperPreserving sem) (st : CoreState C)
    (out : CoreState C × List (Reaper C)) (hs : reap_all sem wres st = some out)
    (p : Nat) :
    out.2.countP (fun r => decide (r.pid = p))
      + out.1.reapers.countP (fun r => decide (r.pid = p))
      ≤ st.reapers.countP (fun r => decide (r.pid = p)) := by
  obtain ⟨h1, h2⟩ := reap_all_spec sem wres hsem st out hs
  rw [h1, h2]
  apply countP_filter_disjoint_le
  intro r hr
  unfold exitedB at hr
  unfold aliveB
  have hre : reap (wres r.pid) = some ReapOutcome.exited := of_decide_eq_true hr
  rw [hre]
  rfl

/-- Multi-scan count bound: across any sequence of `SIGCHLD` wakeups, the
total number of dispatches for a pid never exceeds the entries initially
queued for it. -/
theorem reapScans_count {C : Type} (sem : Sem C) (hsem : ReaperPreserving sem) :
    ∀ (ws : List (Nat → List WaitRes)) (st : CoreState C)
      (out : CoreState C × List (Reaper C)),
      reapScans sem ws st = some out → ∀ p : Nat,
      out.2.countP (fun r => decide (r.pid = p))
        ≤ st.reapers.countP (fun r => decide (r.pid = p)) := by
  intro ws
  induction ws with
  | nil =>
    intro st out hs p
    rw [reapScans] at hs
    injection hs with hout
    subst hout
    simp
  | cons w ws ih =>
    intro st out hs p
    rw [reapScans] at hs
    cases hra : reap_all sem w st with
    | none =>
      rw [hra] at hs
      exact Option.noConfusion hs
    | some pr =>
      rcases pr with ⟨st1, tr1⟩
      rw [hra] at hs
      dsimp only at hs
      cases hrec : reapScans sem ws st1 with
      | none =>
        rw [hrec] at hs
        exact Option.noConfusion hs
      | some q2 =>
        rw [hrec] at hs
        dsimp only [Option.map] at hs
        injection hs with hout
        subst hout
        dsimp only
        rw [List.countP_append]
        have hb1 := reap_all_count sem w hsem st (st1, tr1) hra p
        dsimp only at hb1
        have hb2 := ih st1 q2 hrec p
        omega

/-- C7.  The POSIX reaper scan: (i) a `waitpid` interrupted by `EINTR` is
retried; (ii) a still-alive front entry is rotated to the back; (iii) an
exited front entry has its callback dispatched through the standard
`call_on_object` path and is removed; (iv) any other `waitpid` error drops
only that entry; and (v) a full `reap_all` pass over the queue checks every
entry exactly once: the survivors are exactly the still-alive entries in
their original relative order and the dispatched callbacks are exactly those
of the exited entries, in order. -/
theorem c7_reaper_scan {C : Type} (sem : Sem C) (wres : Nat → List WaitRes) :
    (∀ l, reap (WaitRes.eintr :: l) = reap l)
    ∧ (∀ (st : CoreState C) (r : Reaper C) (rest : List (Reaper C)) (k : Nat),
        st.reapers = r :: rest →
        reap (wres r.pid) = some ReapOutcome.alive →
        reapScan sem wres (k + 1) st =
          reapScan sem wres k { st with reapers := rest ++ [r] })
    ∧ (∀ (st : CoreState C) (r : Reaper C) (rest : List (Reaper C)) (k : Nat),
        st.reapers = r :: rest →
        reap (wres r.pid) = some ReapOutcome.exited →
        reapScan sem wres (k + 1) st =
          (reapScan sem wres k
            ((CoreState.call_on_object { st with reapers := rest }
              r.object_id (sem r.callback)).2)).map (fun q => (q.1, r :: q.2)))
    ∧ (∀ (st : CoreState C) (r : Reaper C) (rest : List (Reaper C)) (k : Nat),
        st.reapers = r :: rest →
        reap (wres r.pid) = some ReapOutcome.failed →
        reapScan sem wres (k + 1) st = reapScan sem wres k { st with reapers := rest })
    ∧ (ReaperPreserving sem →
        ∀ (st : CoreState C) (out : CoreState C × List (Reaper C)),
          reap_all sem wres st = some out →
          out.1.reapers = st.reapers.filter (aliveB wres)
          ∧ out.2 = st.reapers.filter (exitedB wres)) :=
  ⟨fun _ => rfl,
   fun st r rest k hst hre => reapScan_step_alive sem wres st r rest k hst hre,
   fun st r rest k hst hre => reapScan_step_exited sem wres st r rest k hst hre,
   fun st r rest k hst hre => reapScan_step_failed sem wres st r rest k hst hre,
   fun hsem st out hs => reap_all_spec sem wres hsem st out hs⟩

/-- C8.  Reaper at-most-once: with callbacks that do not touch the reaper
queue, (i) within one scan, for every pid the dispatched entries plus the
surviving entries never exceed the entries initially queued for it — each
dispatched entry is removed; and (ii) across any sequence of `SIGCHLD`
wakeups, the total number of dispatches for a pid never exceeds the number
of entries initially registered for it: a child registered once is
dispatched at most once over the whole execution. -/
theorem c8_reaper_at_most_once {C : Type} (sem : Sem C)
    (hsem : ReaperPreserving sem) :
    (∀ (w : Nat → List WaitRes) (st : CoreState C)
        (out : CoreState C × List (Reaper C)),
        reap_all sem w st = some out → ∀ p : Nat,
        out.2.countP (fun r => decide (r.pid = p))
          + out.1.reapers.countP (fun r => decide (r.pid = p))
          ≤ st.reapers.countP (fun r => decide (r.pid = p)))
    ∧ (∀ (ws : List (Nat → List WaitRes)) (st : CoreState C)
        (out : CoreState C × List (Reaper C)),
        reapScans sem ws st = some out → ∀ p : Nat,
        out.2.countP (fun r => decide (r.pid = p))
          ≤ st.reapers.countP (fun r => decide (r.pid = p))) :=
  ⟨fun w st out hs p => reap_all_count sem w hsem st out hs p,
   fun ws st out hs p => reapScans_count sem hsem ws st out hs p⟩

/-! Construction failures. -/

/-- Claim C9 counterexample: the claim says poller initialisation reports
failure through a result value returned to the caller, but `Core::new` /
`new_core` calls `.unwrap()` on `Poll::new()` (and on `Signals::new`): when
the poller fails to initialise, no value at all is returned to the caller —
the process panics.  Concretely, with the signal stream succeeding and the
poller failing, construction produces no `Core`. -/
theorem c9_counterexample :
    (new_core (0 : Nat) (some ()) none).isSome = false := rfl

/-- Claim C9 amended: child spawn (`Core::spawn` with `cmd.spawn()?` and
`new_child`/`make_nonblocking` with `?`) and socket bind
(`WebSocketServer::new` with `TcpListener::bind(..)?`) surface every failure
to the caller as the `Err` of a returned `Result`; poller and `SIGCHLD`
signal-stream initialisation in `Core::new` do not — they panic via
`.unwrap()` on failure, so no failure value is ever returned there. -/
theorem c9_construction_failures_amended {C : Type} (cb : C) :
    (∀ (e : Nat) (r1 r2 r3 : Except Nat Unit),
        spawnCore (Except.error e) r1 r2 r3 = Except.error e)
    ∧ (∀ (pid e : Nat) (r2 r3 : Except Nat Unit),
        spawnCore (Except.ok pid) (Except.error e) r2 r3 = Except.error e)
    ∧ (∀ (pid e : Nat) (r3 : Except Nat Unit),
        spawnCore (Except.ok pid) (Except.ok ()) (Except.error e) r3 = Except.error e)
    ∧ (∀ (pid e : Nat),
        spawnCore (Except.ok pid) (Except.ok ()) (Except.ok ()) (Except.error e)
          = Except.error e)
    ∧ (∀ pid : Nat,
        spawnCore (Except.ok pid) (Except.ok ()) (Except.ok ()) (Except.ok ())
          = Except.ok ⟨pid⟩)
    ∧ (∀ (e : Nat) (s : Nat → Except Nat Unit),
        make_nonblocking (Except.error e) s = Except.error e)
    ∧ (∀ e : Nat, serverNew (Except.error e) = Except.error e)
    ∧ new_core cb (some ()) none = none
    ∧ (∀ poll : Option Unit, new_core cb none poll = none)
    ∧ new_core cb (some ()) (some ()) ≠ none :=
  ⟨fun _ _ _ _ => rfl, fun _ _ _ _ => rfl, fun _ _ _ => rfl, fun _ _ => rfl,
   fun _ => rfl, fun _ _ => rfl, fun _ => rfl, rfl, fun _ => rfl,
   fun h => Option.noConfusion h⟩

theorem traceSem_preserves : ReaperPreserving traceSem := fun _ _ _ => rfl

/-- Witness for C1 at a concrete event, handler and object. -/
theorem c1_take_restore_discipline_witness :
    stW.io_handlers.get evW.token = some (some hW)
    ∧ stW.objects.get hW.object_id = some (some objW)
    ∧ dispatchEvent traceSem evW stW =
        afterCallback evW.token hW.object_id hW
          (handlerBody traceSem evW hW objW (duringState stW evW.token hW.object_id))
    ∧ (duringState stW evW.token hW.object_id).io_handlers.get evW.token = some none
    ∧ (duringState stW evW.token hW.object_id).objects.get hW.object_id = some none
    ∧ (duringState stW evW.token hW.object_id).getT 5 hW.object_id = none := by
  have h := c1_take_restore_discipline traceSem evW stW hW objW rfl rfl
  exact ⟨rfl, rfl, h.1, h.2.1, h.2.2.1, h.2.2.2 5⟩

/-- Witness for C2: immediate return on the exit flag, and return after
exactly one batch when a callback sets the exit flag. -/
theorem c2_run_returns_on_exit_or_empty_witness :
    (stExit.exit = true ∨ stExit.io_handlers.isEmpty = true)
    ∧ runCore traceSem [[evW]] stExit = RunResult.returned stExit 0
    ∧ runCore exitSem [[evW]] stW =
        RunResult.returned (processBatch exitSem [evW] stW) 1 := by
  have h1 := c2_run_returns_on_exit_or_empty (C := Nat) traceSem
  have h2 := c2_run_returns_on_exit_or_empty (C := Nat) exitSem
  exact ⟨h1.1 [] stExit stExit 0 rfl, h1.2.1 [[evW]] stExit rfl,
    h2.2.2 [evW] [] stW rfl rfl⟩

/-- Witness for C3 at a concrete orphaned handler. -/
theorem c3_orphan_cleanup_witness :
    stOrphan.io_handlers.get evW.token = some (some hW)
    ∧ (stOrphan.objects.get hW.object_id).bind id = none
    ∧ dispatchEvent traceSem evW stOrphan = orphanDrop stOrphan evW.token
    ∧ (orphanDrop stOrphan evW.token).io_handlers.get evW.token = none
    ∧ (orphanDrop stOrphan evW.token).objects = stOrphan.objects
    ∧ (orphanDrop stOrphan evW.token).io_handlers.get 1 = stOrphan.io_handlers.get 1 := by
  have h := c3_orphan_cleanup evW stOrphan hW rfl rfl
  exact ⟨rfl, rfl, h.1 traceSem, h.2.1, h.2.2.1, h.2.2.2 1 (by decide)⟩

/-- Witness for C4 at concrete stores. -/
theorem c4_object_visibility_witness :
    ((stW.add objW2).2).objects.get 0 = some (some objW)
    ∧ ((stW.remove 1).2).objects.get 0 = stW.objects.get 0
    ∧ stTaken.getT 5 0 = none := by
  have h := c4_object_visibility (C := Nat)
  exact ⟨h.2.2.1 stW objW2 0 (some objW) rfl, h.2.2.2.1 stW 0 1 (by decide),
    h.2.2.2.2.1 stTaken 5 0 rfl⟩

/-- Witness for C5 at a concrete store and id. -/
theorem c5_add_remove_roundtrip_witness :
    (((stW.add objW2).2).remove (stW.add objW2).1).1 = some objW2
    ∧ ((((stW.add objW2).2).remove (stW.add objW2).1).2).objects.get
        (stW.add objW2).1 = none
    ∧ stOrphan.getT 5 5 = none
    ∧ stOrphan.getMutT 5 5 = none
    ∧ (stOrphan.remove 5).1 = none
    ∧ (stOrphan.remove 5).2 = stOrphan
    ∧ ((stOrphan.remove 3).2).objects.get 5 = none
    ∧ ((stOrphan.add objW2).2).objects.get 5 = none := by
  have h := c5_add_remove_roundtrip (C := Nat)
  have h3 := h.2.2 stOrphan 5 rfl
  exact ⟨h.1 stW objW2, h.2.1 stW objW2, (h3.1 5).1, (h3.1 5).2, h3.2.1,
    h3.2.2.1, h3.2.2.2.1 3, h3.2.2.2.2 objW2 (by decide)⟩

/-- Witness for C6 at a concrete both-ready event with both callbacks. -/
theorem c6_read_before_write_witness :
    handlerBody traceSem evW hW objW (duringState stW 0 0)
        = readWriteSeq traceSem 1 2 objW (duringState stW 0 0)
    ∧ processBatch traceSem [evW] stW = processBatch traceSem [] (dispatchEvent traceSem evW stW)
    ∧ dispatchEvent traceSem evW stW =
        afterCallback evW.token hW.object_id hW
          (readWriteSeq traceSem 1 2 objW (duringState stW evW.token hW.object_id)) := by
  have h := c6_read_before_write traceSem
  exact ⟨h.1 evW hW 1 2 rfl rfl rfl rfl objW (duringState stW 0 0),
    h.2.1 evW [] stW,
    h.2.2 evW stW hW objW 1 2 rfl rfl rfl rfl rfl rfl⟩

/-- Witness for C7 at a concrete one-entry queue under each oracle. -/
theorem c7_reaper_scan_witness :
    reap [WaitRes.eintr, WaitRes.zero] = reap [WaitRes.zero]
    ∧ reapScan traceSem wAlive 1 stR =
        reapScan traceSem wAlive 0 { stR with reapers := [] ++ [reaperW] }
    ∧ reapScan traceSem wExited 1 stR =
        (reapScan traceSem wExited 0
          ((CoreState.call_on_object { stR with reapers := [] }
            reaperW.object_id (traceSem reaperW.callback)).2)).map
          (fun q => (q.1, reaperW :: q.2))
    ∧ reapScan traceSem wFailed 1 stR =
        reapScan traceSem wFailed 0 { stR with reapers := [] }
    ∧ (outR.1.reapers = stR.reapers.filter (aliveB wExited)
        ∧ outR.2 = stR.reapers.filter (exitedB wExited)) := by
  have hA := c7_reaper_scan traceSem wAlive
  have hE := c7_reaper_scan traceSem wExited
  have hF := c7_reaper_scan traceSem wFailed
  exact ⟨hA.1 [WaitRes.zero],
    hA.2.1 stR reaperW [] 0 rfl rfl,
    hE.2.2.1 stR reaperW [] 0 rfl rfl,
    hF.2.2.2.1 stR reaperW [] 0 rfl rfl,
    hE.2.2.2.2 traceSem_preserves stR outR rfl⟩

/-- Witness for C8 at a concrete one-entry queue: its only registration is
dispatched once and never again. -/
theorem c8_reaper_at_most_once_witness :
    (outR.2.countP (fun r => decide (r.pid = 10))
        + outR.1.reapers.countP (fun r => decide (r.pid = 10))
        ≤ stR.reapers.countP (fun r => decide (r.pid = 10)))
    ∧ outR.2.countP (fun r => decide (r.pid = 10))
        ≤ stR.reapers.countP (fun r => decide (r.pid = 10)) := by
  have h := c8_reaper_at_most_once traceSem traceSem_preserves
  exact ⟨h.1 wExited stR outR rfl 10, h.2 [wExited] stR outR rfl 10⟩

/-- Witness for C10 at concrete tables. -/
theorem c10_fresh_token_no_overwrite_witness :
    (duringState stW 0 0).io_handlers.get 0 = some none
    ∧ (stHN.internal_register 0 (some 9) none).1 ≠ 0
    ∧ ((stHN.internal_register 0 (some 9) none).2).io_handlers.get 0 = some none
    ∧ (((⟨[some none]⟩ : Stash (Option (IoHandler Nat))).restoreInner 0 hW).2).get 1
        = (⟨[some none]⟩ : Stash (Option (IoHandler Nat))).get 1 := by
  have h := c10_fresh_token_no_overwrite (C := Nat)
  exact ⟨h.1 stW 0 0 hW rfl, h.2.1 stHN 0 (some 9) none 0 rfl,
    h.2.2.1 stHN 0 (some 9) none 0 rfl,
    h.2.2.2 ⟨[some none]⟩ 0 1 hW (by decide)⟩

end Looper
